import Mathlib

/-!
Verification of the botkit dispatch core against its specification.

This file shallowly embeds the Go sources of the repository
(`routing/pattern.go`, `routing/router.go`, `routing/security.go`,
`middleware/core.go`, `events/bus.go`, `core/context.go`, `core/response.go`)
as executable Lean definitions and proves/refutes the frozen claims about
them.  Conventions of the embedding:

* Go maps are modelled as association lists with overwrite-on-insert
  (`insertKV`) and `List.lookup`; Go map iteration order is unspecified,
  the association list fixes one order where a claim does not depend on it.
* Go panics are modelled by an explicit result type (`RResult.panicked` for
  handlers, `HandlerOutcome.panicked` for event handlers); `recover` becomes
  pattern matching on that constructor.
* `time.Time` is modelled as an `Int` number of seconds
  (`now.Add(window * time.Second)` becomes `now + window`).
* `sort.Slice` is NOT a stable sort and its exact output order on equal keys
  is unspecified; it is therefore modelled relationally (`IsSortSliceBy`):
  any permutation of the input that is pairwise non-increasing in the sort
  key is an admissible outcome.
* Mutex operations are dropped (single-threaded semantics of the guarded
  critical sections).
* `strings.ToLower` / `strings.TrimSpace` and the regexp character classes
  `\d`, `\w`, `.` are modelled on ASCII (Go's `\d`/`\w` are ASCII-only;
  ToLower/TrimSpace agree with the model on ASCII inputs, which is what all
  theorems and counterexamples below use).
-/

set_option maxRecDepth 8192

namespace BotKit

/-! ### Association-list model of Go maps -/

/-- Overwrite-or-append insertion, the semantics of `m[k] = v` on a Go map
(at most one binding per key). -/
def insertKV {β : Type} : List (String × β) → String → β → List (String × β)
  | [], k, v => [(k, v)]
  | (k', v') :: rest, k, v =>
    if k' = k then (k, v) :: rest else (k', v') :: insertKV rest k v

/-- Key removal, the semantics of `delete(m, k)` on a Go map. -/
def eraseKV {β : Type} : List (String × β) → String → List (String × β)
  | [], _ => []
  | (k', v') :: rest, k => if k' = k then rest else (k', v') :: eraseKV rest k

/-! ### Core data model (`core/context.go`, `core/response.go`) -/

/-- A Go `interface{}` value as far as the dispatcher inspects it: either a
string (the only case the router's `data.(string)` assertion accepts) or
anything else. -/
inductive GoValue
  | str (s : String)
  | other

/-- `core.BaseContext`, the concrete `UniversalContext` of the source.
Only the fields the routing/security/middleware code reads are kept;
`HasPermission` is kept as a predicate field because `UniversalContext` is an
interface (the source `BaseContext` implementation returns `true`
unconditionally). -/
structure UniversalContext where
  userID : Int := 0
  chatID : Int := 0
  text : String := ""
  data : List (String × GoValue) := []
  params : List (String × GoValue) := []
  isCommand : Bool := false
  isCallback : Bool := false
  roles : List String := []
  source : String := "unknown"
  profile : Option Unit := none
  hasPermission : String → Bool := fun _ => true

def UniversalContext.GetText (c : UniversalContext) : String := c.text

def UniversalContext.GetData (c : UniversalContext) : List (String × GoValue) := c.data

def UniversalContext.IsCommand (c : UniversalContext) : Bool := c.isCommand

def UniversalContext.IsCallback (c : UniversalContext) : Bool := c.isCallback

/-- `IsMessage() bool { return !c.isCommand && !c.isCallback }` -/
def UniversalContext.IsMessage (c : UniversalContext) : Bool :=
  !c.isCommand && !c.isCallback

/-- `IsAuthenticated() bool { return c.userID > 0 }` -/
def UniversalContext.IsAuthenticated (c : UniversalContext) : Bool :=
  decide (0 < c.userID)

def UniversalContext.GetParam (c : UniversalContext) (key : String) : Option GoValue :=
  c.params.lookup key

def UniversalContext.SetParam (c : UniversalContext) (key : String) (value : GoValue) :
    UniversalContext :=
  { c with params := insertKV c.params key value }

/-- `core.ResponseType` (`core/response.go`). -/
inductive ResponseType
  | message | edit | delete | callback | silent | multiple | redirect | stream
  deriving Repr, DecidableEq

/-- `core.MessageContent`, restricted to the fields built-in responses set. -/
structure MessageContent where
  Text : String := ""
  ParseMode : String := "HTML"
  deriving Repr, DecidableEq

/-- `core.BaseResponse` (media/keyboard/options payloads are irrelevant to
dispatch and omitted). -/
structure BaseResponse where
  responseType : ResponseType
  content : MessageContent := {}
  deriving Repr, DecidableEq

/-- `core.NewMessage` -/
def NewMessage (text : String) : BaseResponse :=
  { responseType := ResponseType.message, content := { Text := text } }

/-- `core.NewSilentResponse` -/
def NewSilentResponse : BaseResponse :=
  { responseType := ResponseType.silent }

/-- The result of running Go code that returns a `core.Response` but may
panic: panics are modelled explicitly so that `recover` can be expressed. -/
inductive RResult
  | ok (r : BaseResponse)
  | panicked (v : String)

/-- `core.HandlerFunc` -/
abbrev HandlerFunc := UniversalContext → RResult

/-! ### Pattern compiler (`routing/pattern.go`) -/

/-- The capture classes the placeholder vocabulary compiles to:
`\d+`, `\w+`, `.+` (Go regexp default flavour, ASCII classes). -/
inductive CapClass
  | digits | word | anychar
  deriving Repr, DecidableEq

def CapClass.test : CapClass → Char → Bool
  | .digits, c => c.isDigit
  | .word, c => c.isAlphanum || c = '_'
  | .anychar, c => c != '\n'

/-- A segment of a compiled pattern: after `regexp.QuoteMeta` every
non-placeholder character is a literal, and each placeholder becomes one
named capture group. -/
inductive Seg
  | lit (s : List Char)
  | cap (name : String) (cls : CapClass)
  deriving Repr, DecidableEq

/-- The needle of one `ReplaceAllString` pass of `patternToRegex`: the
replacement regexes are written `\{id\}` etc., and as regexes those match
the unescaped four-to-eight-character texts `{id}`/`{user}`/`{name}`/
`{text}`/`{amount}`/`{any}`.  `placeholderAt` recognizes such an occurrence
at the head of the character list and returns the placeholder's name, its
capture class (`\d+`, `\w+` or `.+`), and the remaining characters. -/
def placeholderAt (cs : List Char) : Option (String × CapClass × List Char) :=
  if "{id}".toList.isPrefixOf cs then some ("id", CapClass.digits, cs.drop 4)
  else if "{user}".toList.isPrefixOf cs then some ("user", CapClass.digits, cs.drop 6)
  else if "{name}".toList.isPrefixOf cs then some ("name", CapClass.word, cs.drop 6)
  else if "{text}".toList.isPrefixOf cs then some ("text", CapClass.anychar, cs.drop 6)
  else if "{amount}".toList.isPrefixOf cs then some ("amount", CapClass.digits, cs.drop 8)
  else if "{any}".toList.isPrefixOf cs then some ("any", CapClass.anychar, cs.drop 5)
  else none

def flushLit (acc : List Char) : List Seg :=
  if acc.isEmpty then [] else [Seg.lit acc.reverse]

/-- The characters `regexp.QuoteMeta` escapes (Go's regexp metacharacter
set); note that `{` and `}` are in it. -/
def goRegexSpecial (c : Char) : Bool :=
  c = '\\' || c = '.' || c = '+' || c = '*' || c = '?' || c = '(' || c = ')' ||
    c = '|' || c = '[' || c = ']' || c = '{' || c = '}' || c = '^' || c = '$'

/-- `regexp.QuoteMeta`: a backslash before every metacharacter.  In
particular every placeholder brace of the pattern comes out escaped. -/
def quoteMeta : List Char → List Char
  | [] => []
  | c :: rest =>
    if goRegexSpecial c then '\\' :: c :: quoteMeta rest else c :: quoteMeta rest

/-- Scanner turning the regex source built by `patternToRegex` — the
QuoteMeta-escaped pattern to which the six `ReplaceAllString` passes were
applied — into its match semantics: a placeholder-needle occurrence becomes
a capture group (the substituted `(?P<id>\d+)` etc.), a backslash escape
`\x` matches the literal `x`, and everything else is a literal.  `acc`
holds the pending literal characters in reverse.  The fuel is an upper
bound on the characters left; each step consumes at least one, so fuel
equal to the input length never runs out. -/
def patternToRegexAux : Nat → List Char → List Char → List Seg
  | 0, cs, acc => flushLit (cs.reverse ++ acc)
  | _ + 1, [], acc => flushLit acc
  | fuel + 1, c :: rest, acc =>
    match placeholderAt (c :: rest) with
    | some (nm, cls, rest') => flushLit acc ++ Seg.cap nm cls :: patternToRegexAux fuel rest' []
    | none =>
      if c = '\\' then patternToRegexAux fuel rest.tail (rest.headD c :: acc)
      else patternToRegexAux fuel rest (c :: acc)

/-- `RoutePattern.patternToRegex`: `regexp.QuoteMeta`, then the six
placeholder substitutions, then `^...$` anchoring, represented as the
segment list the anchored match runs through.  Because `QuoteMeta` escapes
the braces, the quoted pattern contains `\{id\}` with literal backslashes
while the replacement needles are the unescaped `{id}` etc., so no
substitution ever fires (`patternToRegex_no_caps` below): every non-`*`
pattern compiles to a pure anchored literal with no capture groups. -/
def patternToRegex (pattern : String) : List Seg :=
  patternToRegexAux (quoteMeta pattern.toList).length (quoteMeta pattern.toList) []

/-- One compiled alternative of a route: the wildcard pattern `"*"` compiles
to the unanchored `.*` (which matches every input), anything else to the
anchored segment sequence. -/
inductive CompiledRegex
  | star
  | anchored (segs : List Seg)
  deriving Repr, DecidableEq

/-- Per-pattern body of `RoutePattern.Compile`.  `regexp.Compile` always
succeeds here: the `patternToRegex` output is an anchored quoted literal
(the placeholder substitutions never fire), which is always a valid
regex. -/
def compilePattern (pattern : String) : CompiledRegex :=
  if pattern = "*" then CompiledRegex.star
  else CompiledRegex.anchored (patternToRegex pattern)

/-- Greedy search for a capture: try the longest class-satisfying prefix
first (`k` characters), backing off one character at a time; `+` requires at
least one character. -/
def tryCaps (nm : String) (cs : List Char)
    (matchRest : List Char → Option (List (String × List Char))) :
    Nat → Option (List (String × List Char))
  | 0 => none
  | k + 1 =>
    match matchRest (cs.drop (k + 1)) with
    | some ps => some ((nm, cs.take (k + 1)) :: ps)
    | none => tryCaps nm cs matchRest k

/-- Anchored match of a segment sequence against the whole input, returning
the named captures in group order (the semantics of
`re.FindStringSubmatch` on `^...$` with greedy quantifiers). -/
def matchSegs : List Seg → List Char → Option (List (String × List Char))
  | [], [] => some []
  | [], _ :: _ => none
  | Seg.lit s :: rest, cs =>
    if s.isPrefixOf cs then matchSegs rest (cs.drop s.length) else none
  | Seg.cap nm cls :: rest, cs =>
    tryCaps nm cs (fun suffix => matchSegs rest suffix) ((cs.takeWhile cls.test).length)

/-- ASCII `unicode.IsSpace` (the characters `strings.TrimSpace` strips). -/
def isSpaceGo (c : Char) : Bool :=
  c = ' ' || c = '\t' || c = '\n' || c = '\r' || c = '\x0b' || c = '\x0c'

def trimSpace (cs : List Char) : List Char :=
  ((cs.dropWhile isSpaceGo).reverse.dropWhile isSpaceGo).reverse

/-- `strings.TrimSpace(strings.ToLower(text))`, the normalization `Match`
applies to the input (note: only the input, never the pattern). -/
def normalizeText (s : String) : List Char :=
  trimSpace (s.toList.map Char.toLower)

/-- `string(rune('0' + i))`, the positional parameter key. -/
def posParamKey (i : Nat) : String :=
  String.singleton (Char.ofNat ('0'.toNat + i))

/-- The named-group loop of `Match`: `params[name] = matches[i]`. -/
def addNamed (caps : List (String × List Char)) (m : List (String × String)) :
    List (String × String) :=
  caps.foldl (fun acc kv => insertKV acc kv.1 (String.mk kv.2)) m

/-- The positional loop of `Match`: `params[string(rune('0'+i))] = matches[i]`
for `i = 1 ..`. -/
def addPositional : List (List Char) → Nat → List (String × String) → List (String × String)
  | [], _, m => m
  | v :: rest, i, m => addPositional rest (i + 1) (insertKV m (posParamKey i) (String.mk v))

/-- The parameter map `Match` builds for a pattern with capture groups:
named groups, then positional keys, then the reserved `"_pattern"` entry
holding the literal pattern text that matched. -/
def buildParams (caps : List (String × List Char)) (pattern : String) :
    List (String × String) :=
  insertKV (addPositional (caps.map Prod.snd) 1 (addNamed caps [])) "_pattern" pattern

/-- The loop of `RoutePattern.Match` over the compiled alternatives (kept
zipped with their pattern texts, mirroring the parallel `Patterns`/`compiled`
slices).  The `.star` case is `FindStringSubmatch(".*")`: always a match with
a single group, hence empty parameters. -/
def matchLoop : List (String × CompiledRegex) → List Char → Bool × List (String × String)
  | [], _ => (false, [])
  | (pat, rx) :: rest, t =>
    match rx with
    | CompiledRegex.star => (true, [])
    | CompiledRegex.anchored segs =>
      match matchSegs segs t with
      | some caps => if caps.isEmpty then (true, []) else (true, buildParams caps pat)
      | none => matchLoop rest t

/-- `routing.RouteType` -/
inductive RouteType
  | command | callback | message | regex | wildcard
  deriving Repr, DecidableEq

/-- `routing.RouteMeta` (informational fields only). -/
structure RouteMeta where
  Name : String := ""
  Description : String := ""
  Category : String := ""
  Tags : List String := []
  Hidden : Bool := false
  deriving Repr, DecidableEq

/-! ### Security gate and rate limiter (`routing/security.go`) -/

/-- `routing.RateLimitConfig` -/
structure RateLimitConfig where
  Requests : Int := 0
  Window : Int := 0
  BurstSize : Int := 0
  Strategy : String := ""
  deriving Repr, DecidableEq

/-- `routing.SecurityRule`.  `ValidateFunc`/`OnFailure` are function-typed
fields; a `none` models the nil Go function. -/
structure SecurityRule where
  RequireAuth : Bool := false
  RequireRoles : List String := []
  RequirePermissions : List String := []
  RequireProfile : Bool := false
  AllowedSources : List String := []
  RateLimit : Option RateLimitConfig := none
  ValidateFunc : Option (UniversalContext → Option String) := none

/-- helper `hasAnyRole` -/
def hasAnyRole (userRoles requiredRoles : List String) : Bool :=
  requiredRoles.any (fun required => userRoles.any (fun userRole => userRole = required))

/-- helper `contains` -/
def contains (slice : List String) (item : String) : Bool :=
  slice.any (fun s => s = item)

/-- `SecurityRule.Check`: the first failing condition as an error message
(error values modelled by their `Error()` strings). -/
def SecurityRule.Check (s : SecurityRule) (ctx : UniversalContext) : Option String :=
  if s.RequireAuth && !ctx.IsAuthenticated then some "authentication required"
  else if s.RequireProfile && ctx.profile.isNone then some "profile required"
  else if decide (0 < s.RequireRoles.length) && !hasAnyRole ctx.roles s.RequireRoles then
    some "insufficient role"
  else
    match s.RequirePermissions.find? (fun perm => !ctx.hasPermission perm) with
    | some perm => some ("insufficient permission: " ++ perm)
    | none =>
      if decide (0 < s.AllowedSources.length) && !contains s.AllowedSources ctx.source then
        some ("source not allowed: " ++ ctx.source)
      else
        match s.ValidateFunc with
        | some f => f ctx
        | none => none

/-! ### Route patterns (`routing/pattern.go`) -/

/-- `routing.RoutePattern`.  The `compiled` cache is not carried: `Compile`
is deterministic and `Match` compiles on first use, so matching is a pure
function of `Patterns`. -/
structure RoutePattern where
  Patterns : List String := []
  Handler : HandlerFunc := fun _ => RResult.panicked "nil handler"
  Priority : Int := 50
  type : RouteType := RouteType.command
  Security : SecurityRule := {}
  Meta : RouteMeta := {}
  Module : String := ""

/-- `RoutePattern.Match`: lowercases and trims the input, then runs the
compiled alternatives in order; on a match with capture groups it returns
the parameter map of `buildParams`. -/
def RoutePattern.Match (r : RoutePattern) (text : String) : Bool × List (String × String) :=
  matchLoop (r.Patterns.map (fun p => (p, compilePattern p))) (normalizeText text)

/-- `RoutePattern.MatchType` (`Type` is a Lean keyword, hence the lowercase
field name). -/
def RoutePattern.MatchType (r : RoutePattern) (ctx : UniversalContext) : Bool :=
  match r.type with
  | RouteType.command => ctx.IsCommand
  | RouteType.callback => ctx.IsCallback
  | RouteType.message => ctx.IsMessage
  | RouteType.regex => true
  | RouteType.wildcard => true

/-- `RoutePattern.CheckSecurity` -/
def RoutePattern.CheckSecurity (r : RoutePattern) (ctx : UniversalContext) : Option String :=
  r.Security.Check ctx

/-- `RoutePattern.Execute`: security check first, then the handler. -/
def RoutePattern.Execute (r : RoutePattern) (ctx : UniversalContext) : RResult :=
  match r.CheckSecurity ctx with
  | some err => RResult.ok (NewMessage ("🚫 " ++ err))
  | none => r.Handler ctx

/-! ### Rate limiter (`routing/security.go`) -/

/-- `routing.rateLimitCounter` -/
structure rateLimitCounter where
  Count : Int
  ResetAt : Int
  UpdatedAt : Int
  deriving Repr, DecidableEq

/-- `routing.RateLimiter` (the unused `storage` dependency is dropped). -/
structure RateLimiter where
  config : RateLimitConfig
  counters : List (String × rateLimitCounter) := []
  deriving Repr, DecidableEq

/-- `routing.NewRateLimiter` -/
def NewRateLimiter (config : RateLimitConfig) : RateLimiter :=
  { config :=
      if config.Strategy = "" then { config with Strategy := "sliding_window" } else config,
    counters := [] }

/-- `RateLimiter.getKey`: `"user:%d:chat:%d"` over user and chat ids. -/
def RateLimiter.getKey (ctx : UniversalContext) : String :=
  "user:" ++ toString ctx.userID ++ ":chat:" ++ toString ctx.chatID

/-- `RateLimiter.Allow` with `time.Now()` passed explicitly (seconds).
Fresh or expired window: install count 1 with reset `now + Window`; else
deny at the maximum, otherwise increment. -/
def RateLimiter.Allow (rl : RateLimiter) (ctx : UniversalContext) (now : Int) :
    Bool × RateLimiter :=
  let key := RateLimiter.getKey ctx
  let fresh : rateLimitCounter := { Count := 1, ResetAt := now + rl.config.Window, UpdatedAt := now }
  match rl.counters.lookup key with
  | none =>
    (true, { rl with counters := insertKV rl.counters key fresh })
  | some counter =>
    if now > counter.ResetAt then
      (true, { rl with counters := insertKV rl.counters key fresh })
    else if counter.Count ≥ rl.config.Requests then
      (false, rl)
    else
      let bumped : rateLimitCounter := { counter with Count := counter.Count + 1, UpdatedAt := now }
      (true, { rl with counters := insertKV rl.counters key bumped })

/-- `RateLimiter.Reset`: deletes the key `"user:%d"` (note: not the
`"user:%d:chat:%d"` key `Allow` uses). -/
def RateLimiter.Reset (rl : RateLimiter) (userID : Int) : RateLimiter × Option String :=
  ({ rl with counters := eraseKV rl.counters ("user:" ++ toString userID) }, none)

/-- `RateLimiter.GetLimit` (current, max, resetAt — also on the `"user:%d"`
key). -/
def RateLimiter.GetLimit (rl : RateLimiter) (userID : Int) : Int × Int × Int :=
  match rl.counters.lookup ("user:" ++ toString userID) with
  | none => (0, rl.config.Requests, 0)
  | some counter => (counter.Count, rl.config.Requests, counter.ResetAt)

/-- Iterated `Allow` at a sequence of timestamps, returning the outcomes in
order together with the final limiter state. -/
def RateLimiter.allowSeq (rl : RateLimiter) (ctx : UniversalContext) :
    List Int → List Bool × RateLimiter
  | [] => ([], rl)
  | t :: ts =>
    let step := RateLimiter.Allow rl ctx t
    let rest := RateLimiter.allowSeq step.2 ctx ts
    (step.1 :: rest.1, rest.2)

/-! ### Middleware (`middleware/core.go`, `routing/middleware.go`) -/

/-- `routing.Middleware` (interface): name, priority and process function. -/
structure Middleware where
  name : String
  priority : Int
  process : UniversalContext → HandlerFunc → RResult

/-- The fixed response `RecoveryMiddleware` substitutes for a panic. -/
def recoveryResponse : BaseResponse :=
  NewMessage "❌ Произошла внутренняя ошибка. Попробуйте позже."

/-- `RecoveryMiddleware.Process`: `defer`/`recover` around `next(ctx)`;
a recovered panic is logged and replaced by the fixed response. -/
def RecoveryMiddleware.Process (ctx : UniversalContext) (next : HandlerFunc) : RResult :=
  match next ctx with
  | RResult.ok r => RResult.ok r
  | RResult.panicked _ => RResult.ok recoveryResponse

/-- `NewRecoveryMiddleware` as a `routing.Middleware` value. -/
def recoveryMiddleware (priority : Int) : Middleware :=
  { name := "recovery", priority := priority,
    process := fun ctx next => RecoveryMiddleware.Process ctx next }

/-! ### `sort.Slice` contract

`sort.Slice` is documented as *not* stable; its guaranteed contract is only
that the result is a permutation of the input that is sorted for the given
comparator.  With the comparator `p[i] > p[j]` (used for both middlewares and
routes) an admissible outcome is any pairwise non-increasing permutation. -/

def IsSortSliceBy {α : Type} (key : α → Int) (input output : List α) : Prop :=
  input.Perm output ∧ output.Pairwise (fun a b => key b ≤ key a)

/-! ### Router (`routing/router.go`) -/

/-- `core.Module` as the router observes it: identity, routes and the
outcomes of its lifecycle calls (`Init`/`Start`/`Stop` return values). -/
structure Module where
  name : String
  version : String := "1.0.0"
  routes : List RoutePattern := []
  initErr : Option String := none
  startErr : Option String := none
  stopErr : Option String := none

/-- `core.WildcardModule`: a module plus priority, predicate and handler of
last resort. -/
structure WildcardModule where
  toModule : Module
  priority : Int := 0
  shouldHandle : UniversalContext → Bool := fun _ => false
  handleWildcard : UniversalContext → RResult := fun _ => RResult.ok NewSilentResponse

/-- `routing.compiledRoute` -/
structure compiledRoute where
  pattern : RoutePattern
  module : String
  compiled : Bool := false

/-- `routing.wildcardHandler` -/
structure wildcardHandler where
  module : WildcardModule
  priority : Int

/-- The router's event bus as the router's lifecycle observes it: the
outcomes of its `Start`/`Stop` calls (the bus internals are modelled
separately in the events section). -/
structure BusHandle where
  startErr : Option String := none
  stopErr : Option String := none
  deriving Repr, DecidableEq

/-- `routing.Router` (logger/config dropped; `dependencies` kept as the
nil-ness the registration path branches on). -/
structure Router where
  modules : List (String × Module) := []
  routes : List compiledRoute := []
  wildcards : List wildcardHandler := []
  middlewares : List Middleware := []
  eventBus : Option BusHandle := none
  hasDependencies : Bool := false
  started : Bool := false

/-- `routing.NewRouter` -/
def NewRouter (eventBus : Option BusHandle) : Router :=
  { eventBus := eventBus }

/-- `Router.RegisterModule`: started check, duplicate check, init, then
commit of the module and its routes.  (The optional event-subscription step
for event-aware modules is out of the claims' scope and omitted.) -/
def Router.RegisterModule (r : Router) (m : Module) : Router × Option String :=
  if r.started then (r, some "cannot register module after router started")
  else if (r.modules.lookup m.name).isSome then
    (r, some ("module " ++ m.name ++ " already registered"))
  else if r.hasDependencies && m.initErr.isSome then
    (r, some ("failed to init module " ++ m.name ++ ": " ++ m.initErr.getD ""))
  else
    ({ r with
        modules := r.modules ++ [(m.name, m)],
        routes := r.routes ++ m.routes.map
          (fun p => { pattern := p, module := m.name, compiled := false }) },
      none)

/-- `Router.RegisterWildcard` (relational because of the `sort.Slice` on the
wildcard list): started check, delegation to `RegisterModule`, then append
and re-sort of the wildcard handlers by descending priority. -/
def RegisterWildcardRel (r : Router) (wm : WildcardModule) (out : Router × Option String) :
    Prop :=
  if r.started then out = (r, some "cannot register wildcard after router started")
  else
    match Router.RegisterModule r wm.toModule with
    | (r1, some e) => out = (r1, some e)
    | (r1, none) =>
      ∃ ws, IsSortSliceBy (fun w => w.priority)
          (r1.wildcards ++ [{ module := wm, priority := wm.priority }]) ws ∧
        out = ({ r1 with wildcards := ws }, none)

/-- `Router.RegisterMiddleware` (relational because of the `sort.Slice` on
the middleware list): append, then re-sort by descending priority.  Note the
source has **no** started check and no error return here. -/
def RegisterMiddlewareRel (r : Router) (mw : Middleware) (r' : Router) : Prop :=
  IsSortSliceBy (fun m => m.priority) (r.middlewares ++ [mw]) r'.middlewares ∧
  r' = { r with middlewares := r'.middlewares }

/-- The text `routeInternal` matches: for callbacks, the `callback_data`
entry (whose `data.(string)` assertion panics on a non-string). -/
def getMatchText (ctx : UniversalContext) : Except String String :=
  if ctx.IsCallback then
    match ctx.GetData.lookup "callback_data" with
    | some (GoValue.str s) => Except.ok s
    | some GoValue.other => Except.error "interface conversion: interface {} is not string"
    | none => Except.ok ctx.GetText
  else Except.ok ctx.GetText

/-- The route-scanning loop of `routeInternal`: skip routes whose kind filter
rejects the context, stop at the first pattern match. -/
def findMatch : List compiledRoute → UniversalContext → String →
    Option (compiledRoute × List (String × String))
  | [], _, _ => none
  | cr :: rest, ctx, text =>
    if cr.pattern.MatchType ctx then
      match cr.pattern.Match text with
      | (true, params) => some (cr, params)
      | (false, _) => findMatch rest ctx text
    else findMatch rest ctx text

/-- `ctx.SetParam(key, value)` over every extracted parameter. -/
def bindParams (params : List (String × String)) (ctx : UniversalContext) :
    UniversalContext :=
  params.foldl (fun c kv => c.SetParam kv.1 (GoValue.str kv.2)) ctx

/-- `routeInternal`, deterministic in a given priority-sorted snapshot `rs`
of the routes: derive the match text, scan the snapshot, bind parameters
and execute on a match, otherwise fall back to the wildcard handlers,
otherwise answer the silent response.  Returns the context as seen by the
executed handler together with the result. -/
def routeInternalOn (rs : List compiledRoute) (wildcards : List wildcardHandler)
    (ctx : UniversalContext) : UniversalContext × RResult :=
  match getMatchText ctx with
  | Except.error v => (ctx, RResult.panicked v)
  | Except.ok text =>
    match findMatch rs ctx text with
    | some (cr, params) =>
      let ctx' := bindParams params ctx
      (ctx', cr.pattern.Execute ctx')
    | none =>
      match wildcards.find? (fun wc => wc.module.shouldHandle ctx) with
      | some wc => (ctx, wc.module.handleWildcard ctx)
      | none => (ctx, RResult.ok NewSilentResponse)

/-- `routeInternal` as a relation: `sort.Slice` on the copied route slice
yields some admissible descending-priority snapshot. -/
def RouteInternalRel (r : Router) (ctx : UniversalContext)
    (out : UniversalContext × RResult) : Prop :=
  ∃ rs, IsSortSliceBy (fun cr => cr.pattern.Priority) r.routes rs ∧
    out = routeInternalOn rs r.wildcards ctx

/-- The middleware wrapping loop of `Router.Route`: iterating from the last
registered middleware to the first, so the first list element ends up
outermost. -/
def buildChain (mws : List Middleware) (terminal : HandlerFunc) : HandlerFunc :=
  mws.foldr (fun mw acc => fun c => mw.process c acc) terminal

/-- `Router.Route` as a relation: wrap `routeInternal` (with some admissible
route snapshot) in the middleware chain and run it. -/
def RouteRel (r : Router) (ctx : UniversalContext) (out : RResult) : Prop :=
  ∃ rs, IsSortSliceBy (fun cr => cr.pattern.Priority) r.routes rs ∧
    out = buildChain r.middlewares (fun c => (routeInternalOn rs r.wildcards c).2) ctx

/-- `Router.Start`: reject a second start, start the modules (first failure
aborts), then the bus, then set `started`. -/
def Router.Start (r : Router) : Router × Option String :=
  if r.started then (r, some "router already started")
  else
    match r.modules.findSome?
        (fun nm => nm.2.startErr.map (fun e => "failed to start module " ++ nm.1 ++ ": " ++ e)) with
    | some msg => (r, some msg)
    | none =>
      match r.eventBus with
      | some b =>
        match b.startErr with
        | some e => (r, some ("failed to start event bus: " ++ e))
        | none => ({ r with started := true }, none)
      | none => ({ r with started := true }, none)

/-- Observable stop actions of `Router.Stop`, in execution order. -/
inductive StopEvent
  | moduleStop (name : String) (err : Option String)
  | busStop (err : Option String)
  deriving Repr, DecidableEq

/-- `Router.Stop`: no-op when not started; otherwise stop every module
(failures only logged), then the event bus (failure only logged), clear
`started` and return nil.  The middle component records the stop calls in
execution order. -/
def Router.Stop (r : Router) : Router × List StopEvent × Option String :=
  if !r.started then (r, [], none)
  else
    let moduleTrace := r.modules.map (fun nm => StopEvent.moduleStop nm.1 nm.2.stopErr)
    let busTrace :=
      match r.eventBus with
      | some b => [StopEvent.busStop b.stopErr]
      | none => []
    ({ r with started := false }, moduleTrace ++ busTrace, none)

/-! ### Event bus (`events/bus.go`, `events/event.go`) -/

/-- `context.Context`, threaded through unchanged. -/
abbrev GoContext := Unit

/-- `events.Event` (the fields `Publish` and subscribers can observe). -/
structure Event where
  eventType : String
  timestamp : Int := 0
  source : String := ""
  data : List (String × GoValue) := []
  userID : Int := 0
  chatID : Int := 0

/-- Outcome of one event handler call: normal return, error return, or
panic. -/
inductive HandlerOutcome
  | ok
  | err (e : String)
  | panicked (v : String)

/-- `core.EventHandlerFunc` -/
abbrev EventHandlerFunc := GoContext → Event → HandlerOutcome

/-- `events.subscription` -/
structure Subscription where
  handler : EventHandlerFunc
  filter : Option (Event → Bool) := none
  priority : Int := 50

/-- `events.EventBus` (queue/worker state is concurrency and outside the
synchronous claims; only the subscriber registry and start flag are kept). -/
structure EventBus where
  subscribers : List (String × List Subscription) := []
  started : Bool := false

/-- `EventBus.Subscribe`: append a subscription (priority 50, no filter)
under the topic. -/
def EventBus.Subscribe (eb : EventBus) (eventType : String) (handler : EventHandlerFunc) :
    EventBus × Option String :=
  let sub : Subscription := { handler := handler, filter := none, priority := 50 }
  let subs := ((eb.subscribers.lookup eventType).getD []) ++ [sub]
  ({ eb with subscribers := insertKV eb.subscribers eventType subs }, none)

/-- `EventBus.callHandler`: run the handler, converting a panic into the
error `handler panicked: ...`. -/
def EventBus.callHandler (handler : EventHandlerFunc) (gctx : GoContext) (event : Event) :
    Option String :=
  match handler gctx event with
  | HandlerOutcome.ok => none
  | HandlerOutcome.err e => some e
  | HandlerOutcome.panicked v => some ("handler panicked: " ++ v)

/-- Whether a subscription's filter accepts the event
(`sub.filter != nil && !sub.filter(event)` skips it). -/
def subAccepts (event : Event) (sub : Subscription) : Bool :=
  match sub.filter with
  | some f => f event
  | none => true

/-- The subscriber loop of `Publish`: every accepted subscription is invoked
(recorded in the first component) and its failure, if any, collected into
the error list — a failure never stops the loop. -/
def publishLoop (gctx : GoContext) (event : Event) :
    List Subscription → List Subscription × List String
  | [] => ([], [])
  | sub :: rest =>
    if subAccepts event sub then
      let e? := EventBus.callHandler sub.handler gctx event
      let tail := publishLoop gctx event rest
      (sub :: tail.1, match e? with | some e => e :: tail.2 | none => tail.2)
    else publishLoop gctx event rest

/-- The subscription list `Publish` iterates: the event's topic subscribers
followed by the wildcard-topic subscribers. -/
def EventBus.subsFor (eb : EventBus) (event : Event) : List Subscription :=
  ((eb.subscribers.lookup event.eventType).getD []) ++
    ((eb.subscribers.lookup "*").getD [])

/-- `EventBus.Publish` (on a non-nil event; the nil check is the caller's
`event == nil` branch): invoke the matching subscribers and aggregate the
failure count into one error.  The first component records the invoked
subscribers in order. -/
def EventBus.Publish (eb : EventBus) (gctx : GoContext) (event? : Option Event) :
    List Subscription × Option String :=
  match event? with
  | none => ([], some "event cannot be nil")
  | some event =>
    let subs := eb.subsFor event
    if subs.length = 0 then ([], none)
    else
      let run := publishLoop gctx event subs
      (run.1,
        if 0 < run.2.length then
          some ("event processing had " ++ toString run.2.length ++ " errors")
        else none)

/-! ## Lemmas about the map model -/

theorem lookup_insertKV_self {β : Type} (m : List (String × β)) (k : String) (v : β) :
    (insertKV m k v).lookup k = some v := by
  induction m with
  | nil => simp [insertKV, List.lookup]
  | cons hd tl ih =>
    by_cases h : hd.1 = k
    · simp [insertKV, h, List.lookup]
    · have hbeq : (k == hd.1) = false := beq_eq_false_iff_ne.mpr (fun hh => h hh.symm)
      simp [insertKV, h, List.lookup, hbeq, ih]

theorem lookup_insertKV_ne {β : Type} (m : List (String × β)) (k k' : String) (v : β)
    (h : k' ≠ k) : (insertKV m k v).lookup k' = m.lookup k' := by
  have hbeq : (k' == k) = false := beq_eq_false_iff_ne.mpr h
  induction m with
  | nil => simp [insertKV, List.lookup, hbeq]
  | cons hd tl ih =>
    by_cases hk : hd.1 = k
    · subst hk
      simp [insertKV, List.lookup, hbeq]
    · simp [insertKV, hk, List.lookup, ih]

theorem insertKV_singleton {β : Type} (k : String) (v v' : β) :
    insertKV [(k, v)] k v' = [(k, v')] := by
  simp [insertKV]

/-! ## C2: the rate limiter is a fixed window -/

/-- Length of the outcome list of `allowSeq`. -/
theorem allowSeq_length (ctx : UniversalContext) :
    ∀ (ts : List Int) (rl : RateLimiter), (RateLimiter.allowSeq rl ctx ts).1.length = ts.length := by
  intro ts
  induction ts with
  | nil => intro rl; simp [RateLimiter.allowSeq]
  | cons t ts ih => intro rl; simp [RateLimiter.allowSeq, ih]

/-- Behaviour of a run of `Allow` calls that all happen before the stored
window expires, starting from a single live counter with count `c`:
the `j`-th call is allowed iff `c + j` is still below the maximum, and the
counter keeps its key and reset time. -/
theorem allowSeq_window (cfg : RateLimitConfig) (ctx : UniversalContext) :
    ∀ (ts : List Int) (c u r : Int),
      1 ≤ c → c ≤ cfg.Requests → (∀ t ∈ ts, ¬ r < t) →
      ((∀ j : Nat, j < ts.length →
        (RateLimiter.allowSeq ⟨cfg, [(RateLimiter.getKey ctx, ⟨c, r, u⟩)]⟩ ctx ts).1.get? j
          = some (decide (c + j < cfg.Requests)))
      ∧ ∃ c' u',
          (RateLimiter.allowSeq ⟨cfg, [(RateLimiter.getKey ctx, ⟨c, r, u⟩)]⟩ ctx ts).2
            = ⟨cfg, [(RateLimiter.getKey ctx, ⟨c', r, u'⟩)]⟩) := by
  intro ts
  induction ts with
  | nil =>
    intro c u r _ _ _
    refine ⟨by intro j hj; simp at hj, c, u, rfl⟩
  | cons t ts ih =>
    intro c u r hc hcN hts
    have hnot : ¬ r < t := hts t (List.mem_cons_self t ts)
    by_cases hfull : cfg.Requests ≤ c
    · -- at the maximum: denied, counter unchanged
      have hstep : RateLimiter.Allow ⟨cfg, [(RateLimiter.getKey ctx, ⟨c, r, u⟩)]⟩ ctx t
          = (false, ⟨cfg, [(RateLimiter.getKey ctx, ⟨c, r, u⟩)]⟩) := by
        simp [RateLimiter.Allow, List.lookup, hnot, hfull]
      have ihs := ih c u r hc hcN (fun t' ht' => hts t' (List.mem_cons_of_mem t ht'))
      have hout : (RateLimiter.allowSeq ⟨cfg, [(RateLimiter.getKey ctx, ⟨c, r, u⟩)]⟩ ctx
            (t :: ts)).1
          = false :: (RateLimiter.allowSeq ⟨cfg, [(RateLimiter.getKey ctx, ⟨c, r, u⟩)]⟩ ctx ts).1 := by
        simp [RateLimiter.allowSeq, hstep]
      have hst : (RateLimiter.allowSeq ⟨cfg, [(RateLimiter.getKey ctx, ⟨c, r, u⟩)]⟩ ctx
            (t :: ts)).2
          = (RateLimiter.allowSeq ⟨cfg, [(RateLimiter.getKey ctx, ⟨c, r, u⟩)]⟩ ctx ts).2 := by
        simp [RateLimiter.allowSeq, hstep]
      constructor
      · intro j hj
        match j with
        | 0 =>
          rw [hout, List.get?_cons_zero]
          have : ¬ (c + ((0 : Nat) : Int) < cfg.Requests) := by omega
          simp [this]
          omega
        | j + 1 =>
          have hih := ihs.1 j (by simpa using hj)
          rw [hout, List.get?_cons_succ, hih]
          have : (c + (j : Int) < cfg.Requests) ↔ (c + (((j + 1 : Nat)) : Int) < cfg.Requests) := by
            constructor <;> (intro h; omega)
          rw [decide_eq_decide.mpr this]
      · obtain ⟨c', u', hstate⟩ := ihs.2
        exact ⟨c', u', by rw [hst, hstate]⟩
    · -- below the maximum: allowed, counter incremented
      push_neg at hfull
      have hstep : RateLimiter.Allow ⟨cfg, [(RateLimiter.getKey ctx, ⟨c, r, u⟩)]⟩ ctx t
          = (true, ⟨cfg, [(RateLimiter.getKey ctx, ⟨c + 1, r, t⟩)]⟩) := by
        simp [RateLimiter.Allow, List.lookup, hnot, not_le.mpr hfull, insertKV_singleton]
      have ihs := ih (c + 1) t r (by omega) (by omega)
        (fun t' ht' => hts t' (List.mem_cons_of_mem t ht'))
      have hout : (RateLimiter.allowSeq ⟨cfg, [(RateLimiter.getKey ctx, ⟨c, r, u⟩)]⟩ ctx
            (t :: ts)).1
          = true ::
            (RateLimiter.allowSeq ⟨cfg, [(RateLimiter.getKey ctx, ⟨c + 1, r, t⟩)]⟩ ctx ts).1 := by
        simp [RateLimiter.allowSeq, hstep]
      have hst : (RateLimiter.allowSeq ⟨cfg, [(RateLimiter.getKey ctx, ⟨c, r, u⟩)]⟩ ctx
            (t :: ts)).2
          = (RateLimiter.allowSeq ⟨cfg, [(RateLimiter.getKey ctx, ⟨c + 1, r, t⟩)]⟩ ctx ts).2 := by
        simp [RateLimiter.allowSeq, hstep]
      constructor
      · intro j hj
        match j with
        | 0 =>
          rw [hout, List.get?_cons_zero]
          have : (c + ((0 : Nat) : Int) < cfg.Requests) := by omega
          simp [this]
          omega
        | j + 1 =>
          have hih := ihs.1 j (by simpa using hj)
          rw [hout, List.get?_cons_succ, hih]
          have : (c + 1 + (j : Int) < cfg.Requests)
              ↔ (c + (((j + 1 : Nat)) : Int) < cfg.Requests) := by
            constructor <;> (intro h; push_cast at *; omega)
          rw [decide_eq_decide.mpr this]
      · obtain ⟨c', u', hstate⟩ := ihs.2
        exact ⟨c', u', by rw [hst, hstate]⟩

theorem get?_replicate_of_lt {α : Type} (a : α) : ∀ (n j : Nat), j < n →
    (List.replicate n a).get? j = some a := by
  intro n
  induction n with
  | zero => intro j hj; omega
  | succ m ih =>
    intro j hj
    match j with
    | 0 => simp [List.replicate_succ]
    | j + 1 =>
      rw [List.replicate_succ, List.get?_cons_succ]
      exact ih j (by omega)

/-- Claim C2.  The rate limiter is a fixed window: for a key with no live
counter (or an expired one) `Allow` installs a counter with count 1 and
expiry `now + Window` and allows; starting fresh, `n` calls inside the first
window are all allowed and the `(n+1)`-th is denied; any call after the
window expiry is allowed again with a freshly reset count of 1. -/
theorem rate_limiter_fixed_window
    (n : Nat) (hn : 1 ≤ n) (W t0 : Int) (ctx : UniversalContext) (ts : List Int)
    (hlen : ts.length = n) (hts : ∀ t ∈ ts, ¬ t0 + W < t) :
    (RateLimiter.Allow (NewRateLimiter { Requests := (n : Int), Window := W }) ctx t0).1 = true
    ∧ ((RateLimiter.Allow (NewRateLimiter { Requests := (n : Int), Window := W }) ctx
        t0).2.counters.lookup (RateLimiter.getKey ctx)) = some ⟨1, t0 + W, t0⟩
    ∧ (RateLimiter.allowSeq (NewRateLimiter { Requests := (n : Int), Window := W }) ctx
        (t0 :: ts)).1 = List.replicate n true ++ [false]
    ∧ (∀ t', t0 + W < t' →
        (RateLimiter.Allow
          ((RateLimiter.allowSeq (NewRateLimiter { Requests := (n : Int), Window := W }) ctx
            (t0 :: ts)).2) ctx t').1 = true
        ∧ ((RateLimiter.Allow
            ((RateLimiter.allowSeq (NewRateLimiter { Requests := (n : Int), Window := W }) ctx
              (t0 :: ts)).2) ctx t').2.counters.lookup (RateLimiter.getKey ctx))
            = some ⟨1, t' + W, t'⟩)
    ∧ (∀ (rl : RateLimiter) (now : Int),
        (rl.counters.lookup (RateLimiter.getKey ctx) = none ∨
          ∃ cnt, rl.counters.lookup (RateLimiter.getKey ctx) = some cnt ∧ cnt.ResetAt < now) →
        (RateLimiter.Allow rl ctx now).1 = true
        ∧ (RateLimiter.Allow rl ctx now).2.counters.lookup (RateLimiter.getKey ctx)
            = some ⟨1, now + rl.config.Window, now⟩) := by
  obtain ⟨m, rfl⟩ : ∃ m, n = m + 1 := ⟨n - 1, by omega⟩
  have hfirst : RateLimiter.Allow (NewRateLimiter { Requests := ((m + 1 : Nat) : Int), Window := W }) ctx t0
      = (true, ⟨{ Requests := ((m + 1 : Nat) : Int), Window := W, BurstSize := 0, Strategy := "sliding_window" }, [(RateLimiter.getKey ctx, ⟨1, t0 + W, t0⟩)]⟩) := by
    simp [NewRateLimiter, RateLimiter.Allow, List.lookup, insertKV]
  have hreq : (1 : Int) ≤ ({ Requests := ((m + 1 : Nat) : Int), Window := W, BurstSize := 0, Strategy := "sliding_window" } : RateLimitConfig).Requests := by
    show (1 : Int) ≤ ((m + 1 : Nat) : Int)
    push_cast
    omega
  have hwin := allowSeq_window
      { Requests := ((m + 1 : Nat) : Int), Window := W, BurstSize := 0, Strategy := "sliding_window" }
      ctx ts 1 t0 (t0 + W) le_rfl hreq hts
  have hseq1 : (RateLimiter.allowSeq (NewRateLimiter { Requests := ((m + 1 : Nat) : Int), Window := W }) ctx (t0 :: ts)).1
      = true :: (RateLimiter.allowSeq ⟨{ Requests := ((m + 1 : Nat) : Int), Window := W, BurstSize := 0, Strategy := "sliding_window" }, [(RateLimiter.getKey ctx, ⟨1, t0 + W, t0⟩)]⟩ ctx ts).1 := by
    simp only [RateLimiter.allowSeq, hfirst]
  have hseq2 : (RateLimiter.allowSeq (NewRateLimiter { Requests := ((m + 1 : Nat) : Int), Window := W }) ctx (t0 :: ts)).2
      = (RateLimiter.allowSeq ⟨{ Requests := ((m + 1 : Nat) : Int), Window := W, BurstSize := 0, Strategy := "sliding_window" }, [(RateLimiter.getKey ctx, ⟨1, t0 + W, t0⟩)]⟩ ctx ts).2 := by
    simp only [RateLimiter.allowSeq, hfirst]
  have hlen' : (RateLimiter.allowSeq ⟨{ Requests := ((m + 1 : Nat) : Int), Window := W, BurstSize := 0, Strategy := "sliding_window" }, [(RateLimiter.getKey ctx, ⟨1, t0 + W, t0⟩)]⟩ ctx ts).1.length = m + 1 := by
    rw [allowSeq_length, hlen]
  refine ⟨by rw [hfirst], by rw [hfirst]; simp [List.lookup], ?_, ?_, ?_⟩
  · -- the n-true-then-false run
    apply List.ext
    intro j
    match j with
    | 0 =>
      rw [hseq1, List.get?_cons_zero, List.replicate_succ]
      simp
    | j + 1 =>
      rw [hseq1, List.get?_cons_succ, List.replicate_succ, List.cons_append,
        List.get?_cons_succ]
      by_cases hj : j < m + 1
      · rw [hwin.1 j (by omega)]
        by_cases hjm : j < m
        · rw [List.get?_append (by simpa using hjm), get?_replicate_of_lt _ _ _ hjm]
          simp
          omega
        · have hjm' : j = m := by omega
          subst hjm'
          rw [List.get?_append_right (by simp)]
          simp
          omega
      · have hl : (RateLimiter.allowSeq ⟨{ Requests := ((m + 1 : Nat) : Int), Window := W, BurstSize := 0, Strategy := "sliding_window" }, [(RateLimiter.getKey ctx, ⟨1, t0 + W, t0⟩)]⟩ ctx ts).1.get? j = none := by
          rw [List.get?_eq_none, hlen']
          omega
        rw [hl, eq_comm, List.get?_eq_none]
        simp
        omega
  · -- after the window has elapsed
    intro t' ht'
    obtain ⟨c', u', hstate⟩ := hwin.2
    have hfin : (RateLimiter.allowSeq (NewRateLimiter { Requests := ((m + 1 : Nat) : Int), Window := W }) ctx (t0 :: ts)).2
        = ⟨{ Requests := ((m + 1 : Nat) : Int), Window := W, BurstSize := 0, Strategy := "sliding_window" }, [(RateLimiter.getKey ctx, ⟨c', t0 + W, u'⟩)]⟩ := by
      rw [hseq2, hstate]
    rw [hfin]
    constructor
    · simp [RateLimiter.Allow, List.lookup, ht']
    · simp [RateLimiter.Allow, List.lookup, ht', insertKV_singleton]
  · -- general fresh-or-expired behaviour of Allow
    intro rl now h
    rcases h with hnone | ⟨cnt, hcnt, hexp⟩
    · constructor
      · simp [RateLimiter.Allow, hnone]
      · simp [RateLimiter.Allow, hnone, lookup_insertKV_self]
    · constructor
      · simp [RateLimiter.Allow, hcnt, hexp]
      · simp [RateLimiter.Allow, hcnt, hexp, lookup_insertKV_self]

/-- Witness for `rate_limiter_fixed_window` at max 2, window 60s, calls at
times 0, 10, 20 for user 1 in chat 2. -/
theorem rate_limiter_fixed_window_witness :
    ([10, 20] : List Int).length = 2
    ∧ (∀ t ∈ ([10, 20] : List Int), ¬ (0 : Int) + 60 < t)
    ∧ (RateLimiter.allowSeq (NewRateLimiter { Requests := ((2 : Nat) : Int), Window := 60 })
        { userID := 1, chatID := 2 } ((0 : Int) :: [10, 20])).1
        = List.replicate 2 true ++ [false] :=
  ⟨rfl, by decide,
    (rate_limiter_fixed_window 2 (by decide) 60 0 { userID := 1, chatID := 2 } [10, 20] rfl
      (by decide)).2.2.1⟩

/-! ## C8: `Reset` does not clear the counter `Allow` maintains (code bug)

`Allow` keys its counters by `"user:<uid>:chat:<cid>"` (`getKey`), while
`Reset` deletes the key `"user:<uid>"`.  No key of the former shape equals a
key of the latter shape, so `Reset` never removes a counter created by
`Allow`, contradicting both the claim and `Reset`'s own doc comment. -/

def resetCtx : UniversalContext := { userID := 1, chatID := 2 }

def resetLimiter0 : RateLimiter := NewRateLimiter { Requests := 1, Window := 60 }

def resetLimiter1 : RateLimiter := (RateLimiter.Allow resetLimiter0 resetCtx 0).2

/-- Claim C8 fails on the code: with max 1 per 60s, user 1 in chat 2 is
allowed once and then rate-limited; `Reset 1` leaves the counter map
unchanged (it deletes the key `"user:1"`, which is never present), and the
next `Allow` is still denied, where the claim requires it to be allowed with
a fresh window. -/
theorem rate_limiter_reset_key_mismatch :
    (RateLimiter.Allow resetLimiter0 resetCtx 0).1 = true
    ∧ (RateLimiter.Allow resetLimiter1 resetCtx 1).1 = false
    ∧ (RateLimiter.Reset resetLimiter1 1).1.counters = resetLimiter1.counters
    ∧ (RateLimiter.Allow (RateLimiter.Reset resetLimiter1 1).1 resetCtx 2).1 = false := by
  refine ⟨rfl, rfl, rfl, rfl⟩

/-! ## C3: synchronous publish fan-out, fault isolation, error aggregation -/

/-- The subscriber loop invokes exactly the filter-accepted subscriptions, in
list order, and collects exactly the failures of those invocations — a
faulting subscriber never truncates the loop. -/
theorem publishLoop_spec (gctx : GoContext) (event : Event) :
    ∀ subs : List Subscription,
      (publishLoop gctx event subs).1 = subs.filter (subAccepts event)
      ∧ (publishLoop gctx event subs).2
        = (subs.filter (subAccepts event)).filterMap
            (fun s => EventBus.callHandler s.handler gctx event) := by
  intro subs
  induction subs with
  | nil => exact ⟨rfl, rfl⟩
  | cons sub rest ih =>
    by_cases h : subAccepts event sub
    · constructor
      · simp [publishLoop, h, ih.1]
      · simp [publishLoop, h, ih.2, List.filterMap_cons]
        cases EventBus.callHandler sub.handler gctx event <;> simp
    · constructor
      · simp [publishLoop, h, ih.1]
      · simp [publishLoop, h, ih.2]

/-- Claim C3.  For every published (non-nil) event, `Publish` synchronously
invokes every matching subscriber — the event's topic subscribers first,
then the wildcard-topic subscribers, each group in registration order (the
`Subscribe` conjunct shows registration appends) — a fault in one subscriber
never prevents the remaining ones from being invoked, and the returned error
is non-nil exactly when at least one invoked subscriber failed. -/
theorem event_bus_publish_fanout (eb : EventBus) (gctx : GoContext) (event : Event) :
    (EventBus.Publish eb gctx (some event)).1
      = (((eb.subscribers.lookup event.eventType).getD [])
          ++ ((eb.subscribers.lookup "*").getD [])).filter (subAccepts event)
    ∧ ((EventBus.Publish eb gctx (some event)).2 ≠ none ↔
        ∃ s ∈ (EventBus.Publish eb gctx (some event)).1,
          EventBus.callHandler s.handler gctx event ≠ none)
    ∧ (∀ (t : String) (h : EventHandlerFunc),
        ((EventBus.Subscribe eb t h).1.subscribers.lookup t)
          = some (((eb.subscribers.lookup t).getD [])
              ++ [{ handler := h, filter := none, priority := 50 }])) := by
  have hloop := publishLoop_spec gctx event (eb.subsFor event)
  by_cases hz : (eb.subsFor event).length = 0
  · have hempty : eb.subsFor event = [] := List.length_eq_zero.mp hz
    have hsubs : (((eb.subscribers.lookup event.eventType).getD [])
        ++ ((eb.subscribers.lookup "*").getD [])) = [] := hempty
    refine ⟨?_, ?_, ?_⟩
    · simp [EventBus.Publish, hz, hsubs]
    · simp [EventBus.Publish, hz]
    · intro t h
      simp [EventBus.Subscribe, lookup_insertKV_self]
  · refine ⟨?_, ?_, ?_⟩
    · simp only [EventBus.Publish, hz, if_false]
      rw [hloop.1]
      rfl
    · simp only [EventBus.Publish, hz, if_false]
      rw [hloop.1, hloop.2]
      by_cases hcase : (((eb.subsFor event).filter (subAccepts event)).filterMap
          (fun s => EventBus.callHandler s.handler gctx event)) = []
      · have hall := List.filterMap_eq_nil.mp hcase
        rw [hcase]
        simp
        intro s hs hacc
        exact hall s (List.mem_filter.mpr ⟨hs, hacc⟩)
      · have hpos := List.length_pos.mpr hcase
        obtain ⟨b, hb⟩ := List.exists_mem_of_ne_nil _ hcase
        rw [List.mem_filterMap] at hb
        obtain ⟨a, ha, hfa⟩ := hb
        simp [hpos]
        exact ⟨a, List.mem_filter.mp ha, by simp [hfa]⟩
    · intro t h
      simp [EventBus.Subscribe, lookup_insertKV_self]

/-! ## C4: recovery containment -/

/-- Claim C4.  `RecoveryMiddleware.Process` converts any fault of the next
handler into the fixed generic error response and never lets a fault
propagate; consequently any `Route` dispatch whose middleware chain has the
recovery middleware outermost (first in the sorted list) returns a
well-formed response and never raises. -/
theorem recovery_containment :
    (∀ (ctx : UniversalContext) (next : HandlerFunc) (v : String),
        next ctx = RResult.panicked v →
        RecoveryMiddleware.Process ctx next = RResult.ok recoveryResponse)
    ∧ (∀ (ctx : UniversalContext) (next : HandlerFunc),
        ∃ resp, RecoveryMiddleware.Process ctx next = RResult.ok resp)
    ∧ (∀ (p : Int) (r : Router) (rest : List Middleware) (ctx : UniversalContext)
        (out : RResult),
        r.middlewares = recoveryMiddleware p :: rest →
        RouteRel r ctx out → ∃ resp, out = RResult.ok resp) := by
  refine ⟨?_, ?_, ?_⟩
  · intro ctx next v h
    simp [RecoveryMiddleware.Process, h]
  · intro ctx next
    cases h : next ctx with
    | ok resp => exact ⟨resp, by simp [RecoveryMiddleware.Process, h]⟩
    | panicked v => exact ⟨recoveryResponse, by simp [RecoveryMiddleware.Process, h]⟩
  · intro p r rest ctx out hmw hrel
    obtain ⟨rs, _, hout⟩ := hrel
    rw [hmw] at hout
    simp only [buildChain, List.foldr_cons] at hout
    cases hin : (List.foldr (fun mw acc => fun c => mw.process c acc)
        (fun c => (routeInternalOn rs r.wildcards c).2) rest) ctx with
    | ok resp =>
      exact ⟨resp, by rw [hout]; simp [recoveryMiddleware, RecoveryMiddleware.Process, hin]⟩
    | panicked v =>
      exact ⟨recoveryResponse,
        by rw [hout]; simp [recoveryMiddleware, RecoveryMiddleware.Process, hin]⟩

def recCtx : UniversalContext := {}

/-- A wildcard module of last resort whose handler panics. -/
def panicWildcard : WildcardModule :=
  { toModule := { name := "w" }, priority := 10,
    shouldHandle := fun _ => true,
    handleWildcard := fun _ => RResult.panicked "boom" }

/-- A router with the recovery middleware outermost and a panicking handler. -/
def recRouter : Router :=
  { middlewares := [recoveryMiddleware 100],
    wildcards := [{ module := panicWildcard, priority := 10 }] }

/-- Witness for `recovery_containment`: dispatching on `recRouter` reaches
the panicking wildcard handler, and the outermost recovery middleware turns
the panic into the fixed error response. -/
theorem recovery_containment_witness :
    RouteRel recRouter recCtx (RResult.ok recoveryResponse)
    ∧ (∃ resp, (RResult.ok recoveryResponse) = RResult.ok resp) := by
  have hrel : RouteRel recRouter recCtx (RResult.ok recoveryResponse) :=
    ⟨[], ⟨List.Perm.refl _, List.Pairwise.nil⟩, rfl⟩
  exact ⟨hrel, recovery_containment.2.2 100 recRouter [] recCtx _ rfl hrel⟩

/-! ## C5: registration after start

`RegisterModule` and `RegisterWildcard` are guarded by the `started` flag and
fail without mutating anything, but `RegisterMiddleware` has no started
check and no error return: it always appends and re-sorts. -/

def startedRouter : Router := { started := true }

def cexMiddleware : Middleware :=
  { name := "m", priority := 50, process := fun ctx next => next ctx }

def startedRouterAfterMw : Router := { startedRouter with middlewares := [cexMiddleware] }

/-- Claim C5 as stated is false: registering a middleware on a started
router succeeds (the relation has no error outcome at all) and mutates the
middleware registry. -/
theorem register_middleware_after_start_not_guarded :
    startedRouter.started = true
    ∧ RegisterMiddlewareRel startedRouter cexMiddleware startedRouterAfterMw
    ∧ startedRouterAfterMw.middlewares ≠ startedRouter.middlewares := by
  refine ⟨rfl, ⟨⟨List.Perm.refl _, ?_⟩, rfl⟩, by simp [startedRouterAfterMw, startedRouter]⟩
  simp [startedRouterAfterMw]

/-- Amended claim C5: after `Start` has succeeded, registering a module or a
wildcard module fails with a defined error and leaves the router unchanged;
registering a middleware is NOT guarded — it succeeds (no error is even
possible) and appends to the middleware list. -/
theorem registration_after_start
    (r : Router) (m : Module) (wm : WildcardModule) (mw : Middleware)
    (h : r.started = true) :
    Router.RegisterModule r m = (r, some "cannot register module after router started")
    ∧ (∀ out, RegisterWildcardRel r wm out →
        out = (r, some "cannot register wildcard after router started"))
    ∧ (∀ r', RegisterMiddlewareRel r mw r' →
        r'.middlewares.length = r.middlewares.length + 1) := by
  refine ⟨by simp [Router.RegisterModule, h], ?_, ?_⟩
  · intro out hrel
    simpa [RegisterWildcardRel, h] using hrel
  · intro r' hrel
    obtain ⟨⟨hperm, _⟩, _⟩ := hrel
    have hlen := hperm.length_eq
    simpa using hlen.symm

/-- Witness for `registration_after_start` on a concrete started router. -/
theorem registration_after_start_witness :
    startedRouter.started = true
    ∧ Router.RegisterModule startedRouter { name := "m2" }
        = (startedRouter, some "cannot register module after router started") :=
  ⟨rfl, (registration_after_start startedRouter { name := "m2" }
    { toModule := { name := "m3" } } cexMiddleware rfl).1⟩

/-! ## C6: middleware ordering

The middleware list is re-sorted with `sort.Slice`, which is documented as
unstable: equal-priority middlewares may end up in any order, so the
registration-order tie-break the claim asserts is not guaranteed. -/

def mwA : Middleware := { name := "a", priority := 5, process := fun ctx next => next ctx }

def mwB : Middleware := { name := "b", priority := 5, process := fun ctx next => next ctx }

def mwRouter0 : Router := {}

def mwRouter1 : Router := { middlewares := [mwA] }

def mwRouter2swapped : Router := { middlewares := [mwB, mwA] }

/-- Claim C6 as stated is false: registering the equal-priority `a` then `b`
admits the sorted outcome `[b, a]`, i.e. the traversal order `b` before `a`,
the reverse of registration order. -/
theorem middleware_tie_order_not_guaranteed :
    RegisterMiddlewareRel mwRouter0 mwA mwRouter1
    ∧ RegisterMiddlewareRel mwRouter1 mwB mwRouter2swapped
    ∧ mwRouter2swapped.middlewares.map (fun m => m.name) = ["b", "a"] := by
  refine ⟨⟨⟨List.Perm.refl _, by simp [mwRouter1]⟩, rfl⟩,
    ⟨⟨List.Perm.swap mwB mwA [], ?_⟩, rfl⟩, rfl⟩
  simp [mwRouter2swapped, List.pairwise_cons, mwA, mwB]

/-- Amended claim C6: after any middleware registration the list is in
non-increasing priority order, the head (the outermost middleware of the
chain built by `Route`) has maximal priority, and the chain wraps the rest
inside it; the relative order of equal-priority middlewares is unspecified
(`sort.Slice` is not stable). -/
theorem middleware_priority_order (r : Router) (mw : Middleware) (r' : Router)
    (hrel : RegisterMiddlewareRel r mw r') :
    r'.middlewares.Pairwise (fun a b => b.priority ≤ a.priority)
    ∧ (∀ m rest, r'.middlewares = m :: rest →
        (∀ x ∈ r'.middlewares, x.priority ≤ m.priority)
        ∧ ∀ (terminal : HandlerFunc) (ctx : UniversalContext),
            buildChain r'.middlewares terminal ctx
              = m.process ctx (buildChain rest terminal)) := by
  obtain ⟨⟨hperm, hpw⟩, hupd⟩ := hrel
  refine ⟨hpw, ?_⟩
  intro m rest hcons
  constructor
  · intro x hx
    rw [hcons] at hx hpw
    rcases List.mem_cons.mp hx with hx | hx
    · subst hx; exact le_refl _
    · exact (List.pairwise_cons.mp hpw).1 x hx
  · intro terminal ctx
    rw [hcons]
    rfl

/-- Witness for `middleware_priority_order` at a concrete registration. -/
theorem middleware_priority_order_witness :
    RegisterMiddlewareRel mwRouter1 mwB mwRouter2swapped
    ∧ mwRouter2swapped.middlewares.Pairwise (fun a b => b.priority ≤ a.priority) := by
  have hrel : RegisterMiddlewareRel mwRouter1 mwB mwRouter2swapped :=
    ⟨⟨List.Perm.swap mwB mwA [], by simp [mwRouter2swapped, List.pairwise_cons, mwA, mwB]⟩, rfl⟩
  exact ⟨hrel, (middleware_priority_order mwRouter1 mwB mwRouter2swapped hrel).1⟩

/-! ## C7: `Router.Stop` order and result

The source stops the modules first and the event bus afterwards, only logs
stop failures, and always returns nil once started. -/

def stopModule : Module := { name := "m", stopErr := some "boom" }

def stopRouter : Router :=
  { modules := [("m", stopModule)], eventBus := some {}, started := true }

/-- Claim C7 as stated is false: on a started router with one module whose
`Stop` fails, `Router.Stop` stops the module first and the bus second (the
claim says bus first) and returns nil (the claim says a non-nil error). -/
theorem router_stop_swallows_module_error :
    stopRouter.started = true
    ∧ (Router.Stop stopRouter).2.1
        = [StopEvent.moduleStop "m" (some "boom"), StopEvent.busStop none]
    ∧ (Router.Stop stopRouter).2.2 = none :=
  ⟨rfl, rfl, rfl⟩

/-- Amended claim C7: `Stop` always returns nil (failures of module or bus
stops are only logged); when the router was started it clears the started
flag and stops all registered modules first and then the event bus. -/
theorem router_stop_order_and_result (r : Router) :
    (Router.Stop r).2.2 = none
    ∧ (r.started = true →
        (Router.Stop r).1.started = false
        ∧ (Router.Stop r).2.1
            = r.modules.map (fun nm => StopEvent.moduleStop nm.1 nm.2.stopErr)
              ++ (match r.eventBus with
                  | some b => [StopEvent.busStop b.stopErr]
                  | none => [])) := by
  constructor
  · by_cases h : r.started <;> simp [Router.Stop, h]
  · intro h
    constructor <;> simp [Router.Stop, h]

/-- Witness for `router_stop_order_and_result` on the concrete router. -/
theorem router_stop_order_and_result_witness :
    stopRouter.started = true
    ∧ (Router.Stop stopRouter).2.2 = none
    ∧ (Router.Stop stopRouter).1.started = false :=
  ⟨rfl, (router_stop_order_and_result stopRouter).1,
    ((router_stop_order_and_result stopRouter).2 rfl).1⟩

/-! ## C1: deterministic priority-first dispatch -/

/-- A successful scan splits the snapshot at the selected route: everything
before it was filtered out or failed to match, and the selected route passes
both the kind filter and the pattern match. -/
theorem findMatch_decomp (ctx : UniversalContext) (text : String)
    (cr : compiledRoute) (ps : List (String × String)) :
    ∀ rs : List compiledRoute, findMatch rs ctx text = some (cr, ps) →
      ∃ pre post, rs = pre ++ cr :: post
        ∧ (∀ x ∈ pre, ¬(x.pattern.MatchType ctx = true ∧ (x.pattern.Match text).1 = true))
        ∧ cr.pattern.MatchType ctx = true
        ∧ cr.pattern.Match text = (true, ps) := by
  intro rs
  induction rs with
  | nil => intro h; simp [findMatch] at h
  | cons c rest ih =>
    intro h
    by_cases hmt : c.pattern.MatchType ctx
    · rcases hm : c.pattern.Match text with ⟨b, params⟩
      cases b with
      | true =>
        rw [findMatch, if_pos hmt, hm] at h
        simp only [Option.some.injEq, Prod.mk.injEq] at h
        obtain ⟨rfl, rfl⟩ := h
        exact ⟨[], rest, rfl, by simp, hmt, hm⟩
      | false =>
        rw [findMatch, if_pos hmt, hm] at h
        obtain ⟨pre, post, hdec, hpre, hcr⟩ := ih h
        refine ⟨c :: pre, post, by rw [hdec]; rfl, ?_, hcr⟩
        intro x hx
        rcases List.mem_cons.mp hx with rfl | hx
        · intro hcontra
          rw [hm] at hcontra
          exact Bool.false_ne_true hcontra.2
        · exact hpre x hx
    · rw [findMatch, if_neg hmt] at h
      obtain ⟨pre, post, hdec, hpre, hcr⟩ := ih h
      refine ⟨c :: pre, post, by rw [hdec]; rfl, ?_, hcr⟩
      intro x hx
      rcases List.mem_cons.mp hx with rfl | hx
      · intro hcontra; exact hmt hcontra.1
      · exact hpre x hx

/-- First-match-wins: once the prefix has been rejected and a route matches,
the scan result does not depend on anything after the matching route. -/
theorem findMatch_prefix_stable (ctx : UniversalContext) (text : String)
    (cr : compiledRoute) (ps : List (String × String))
    (hmt : cr.pattern.MatchType ctx = true) (hm : cr.pattern.Match text = (true, ps)) :
    ∀ pre : List compiledRoute,
      (∀ x ∈ pre, ¬(x.pattern.MatchType ctx = true ∧ (x.pattern.Match text).1 = true)) →
      ∀ post, findMatch (pre ++ cr :: post) ctx text = some (cr, ps) := by
  intro pre
  induction pre with
  | nil =>
    intro _ post
    rw [List.nil_append, findMatch, if_pos hmt, hm]
  | cons x pre ih =>
    intro hpre post
    have hx := hpre x (List.mem_cons_self x pre)
    have hrec := ih (fun y hy => hpre y (List.mem_cons_of_mem x hy)) post
    by_cases hmtx : x.pattern.MatchType ctx
    · rcases hxm : x.pattern.Match text with ⟨b, params⟩
      cases b with
      | true => exact absurd ⟨hmtx, by rw [hxm]⟩ hx
      | false =>
        rw [List.cons_append, findMatch, if_pos hmtx, hxm]
        exact hrec
    · rw [List.cons_append, findMatch, if_neg hmtx]
      exact hrec

/-- Claim C1.  For any admissible priority-sorted snapshot of the routes:
the selected route passes the interaction-kind filter and the pattern match;
no other matching candidate in the registry has a strictly higher priority
(so a strictly-higher-priority matching route is always the one selected,
regardless of registration order); the dispatch result is exactly the
selected route's `Execute` on the parameter-bound context; and the result is
unchanged by whatever routes come after the first match (no further route is
evaluated). -/
theorem dispatch_priority_first_match
    (r : Router) (ctx : UniversalContext) (rs : List compiledRoute) (text : String)
    (cr : compiledRoute) (ps : List (String × String))
    (hsort : IsSortSliceBy (fun c => c.pattern.Priority) r.routes rs)
    (htext : getMatchText ctx = Except.ok text)
    (hfind : findMatch rs ctx text = some (cr, ps)) :
    (cr.pattern.MatchType ctx = true ∧ cr.pattern.Match text = (true, ps))
    ∧ (∀ cr' ∈ r.routes, cr'.pattern.MatchType ctx = true →
        (cr'.pattern.Match text).1 = true → cr'.pattern.Priority ≤ cr.pattern.Priority)
    ∧ routeInternalOn rs r.wildcards ctx
        = (bindParams ps ctx, cr.pattern.Execute (bindParams ps ctx))
    ∧ (∃ pre post, rs = pre ++ cr :: post
        ∧ ∀ post', findMatch (pre ++ cr :: post') ctx text = some (cr, ps)) := by
  obtain ⟨pre, post, hdec, hpre, hmt, hm⟩ := findMatch_decomp ctx text cr ps rs hfind
  refine ⟨⟨hmt, hm⟩, ?_, ?_, pre, post, hdec, ?_⟩
  · intro cr' hmem hmt' hm'
    have hmem' : cr' ∈ rs := (hsort.1.mem_iff).mp hmem
    have hpw := hsort.2
    rw [hdec] at hmem' hpw
    rcases List.mem_append.mp hmem' with hin | hin
    · exact absurd ⟨hmt', hm'⟩ (hpre cr' hin)
    · rcases List.mem_cons.mp hin with rfl | hin
      · exact le_refl _
      · have hsub : (cr :: post).Sublist (pre ++ cr :: post) :=
          List.sublist_append_right pre (cr :: post)
        have hpw' := hpw.sublist hsub
        exact (List.pairwise_cons.mp hpw').1 cr' hin
  · simp [routeInternalOn, htext, hfind]
  · intro post'
    exact findMatch_prefix_stable ctx text cr ps hmt hm pre hpre post'

def wCtx : UniversalContext := { text := "hello" }

def routeHello : RoutePattern :=
  { Patterns := ["hello"], Priority := 10, type := RouteType.message,
    Handler := fun _ => RResult.ok (NewMessage "low") }

def routeHello90 : RoutePattern :=
  { Patterns := ["hello"], Priority := 90, type := RouteType.message,
    Handler := fun _ => RResult.ok (NewMessage "high") }

def crHello : compiledRoute := { pattern := routeHello, module := "m" }

def crHello90 : compiledRoute := { pattern := routeHello90, module := "m" }

def c1Router : Router := { routes := [crHello, crHello90] }

def c1Sorted : List compiledRoute := [crHello90, crHello]

/-- Witness for `dispatch_priority_first_match`: both routes literally match
the plain message "hello", the snapshot puts the priority-90 route first
although it was registered second, and dispatch executes it (with the empty
parameter map every match produces). -/
theorem dispatch_priority_first_match_witness :
    IsSortSliceBy (fun c => c.pattern.Priority) c1Router.routes c1Sorted
    ∧ getMatchText wCtx = Except.ok "hello"
    ∧ findMatch c1Sorted wCtx "hello" = some (crHello90, [])
    ∧ routeInternalOn c1Sorted c1Router.wildcards wCtx
        = (bindParams [] wCtx, crHello90.pattern.Execute (bindParams [] wCtx)) := by
  have hsort : IsSortSliceBy (fun c => c.pattern.Priority) c1Router.routes c1Sorted :=
    ⟨List.Perm.swap crHello90 crHello [],
      by simp [c1Sorted, List.pairwise_cons, crHello90, crHello, routeHello90, routeHello]⟩
  have hfind : findMatch c1Sorted wCtx "hello" = some (crHello90, []) := rfl
  exact ⟨hsort, rfl, hfind,
    (dispatch_priority_first_match c1Router wCtx c1Sorted "hello" crHello90 _ hsort rfl
      hfind).2.2.1⟩

/-! ## C9: literal pattern matching normalizes only the input

`Match` lowercases and trims the input but compiles the pattern verbatim, so
a literal pattern containing an uppercase letter can never match — not even
its own text. -/

/-- An anchored single-literal regex matches exactly the literal itself. -/
theorem matchSegs_single_lit (l t : List Char) :
    matchSegs [Seg.lit l] t = if t = l then some [] else none := by
  by_cases h : t = l
  · subst h
    rw [if_pos rfl]
    simp [matchSegs, List.isPrefixOf_iff_prefix]
  · rw [if_neg h]
    by_cases hp : l.isPrefixOf t
    · have hpre : l <+: t := List.isPrefixOf_iff_prefix.mp hp
      obtain ⟨u, rfl⟩ := hpre
      rw [matchSegs, if_pos hp, List.drop_left]
      cases u with
      | nil => exact absurd (List.append_nil l) h
      | cons c cs => rfl
    · rw [matchSegs, if_neg hp]

def pHi : RoutePattern := { Patterns := ["Hi"] }

/-- Claim C9 as stated is false: the literal pattern `"Hi"` does not match
the input `"Hi"` (equal to the pattern even before case folding), because
the input is lowercased to `"hi"` while the pattern stays `"Hi"`. -/
theorem literal_pattern_uppercase_no_match :
    patternToRegex "Hi" = [Seg.lit "Hi".toList]
    ∧ normalizeText "Hi" = "hi".toList
    ∧ (pHi.Match "Hi").1 = false :=
  ⟨rfl, rfl, rfl⟩

/-- Amended claim C9: a route whose single pattern `P` compiles to a plain
literal matches an input `s` exactly when the lowercased, whitespace-trimmed
`s` equals `P` verbatim.  Matching is therefore case-insensitive and
whitespace-insensitive in the *input*, but a pattern with an uppercase
letter never matches; the claim holds as stated only for patterns without
uppercase letters. -/
theorem literal_pattern_match_iff (P s : String) (rp : RoutePattern)
    (hlit : compilePattern P = CompiledRegex.anchored [Seg.lit P.toList])
    (hpat : rp.Patterns = [P]) :
    (rp.Match s).1 = true ↔ normalizeText s = P.toList := by
  simp only [RoutePattern.Match, hpat, List.map_cons, List.map_nil, hlit]
  rw [matchLoop, matchSegs_single_lit]
  by_cases h : normalizeText s = P.toList
  · simp [h]
  · have h' : ¬ normalizeText s = P.data := h
    simp [h, h', matchLoop]

/-- Witness for `literal_pattern_match_iff`: the all-lowercase literal
`"hello"` matches `"  HeLLo  "`. -/
theorem literal_pattern_match_iff_witness :
    compilePattern "hello" = CompiledRegex.anchored [Seg.lit "hello".toList]
    ∧ (({ Patterns := ["hello"] } : RoutePattern).Match "  HeLLo  ").1 = true :=
  ⟨rfl, (literal_pattern_match_iff "hello" "  HeLLo  " { Patterns := ["hello"] } rfl rfl).mpr rfl⟩

/-! ## C10: parameter map contents and dispatcher binding

The parameter-extraction machinery of `Match` — named captures, positional
keys, the reserved `"_pattern"` entry — and the copying of the map into the
context by `routeInternal` are dead code: `regexp.QuoteMeta` escapes the
braces before the placeholder replacements are attempted, while the
replacement regexes `\{id\}` etc. match the unescaped text `{id}` that no
longer occurs in the quoted pattern.  No substitution ever fires, no
compiled pattern has a capture group, `FindStringSubmatch` always returns a
single element (`len(matches) == 1`), and `Match` answers the empty
parameter map on every successful match. -/

/-- The capture-group names of a segment list, in order. -/
def capNames : List Seg → List String
  | [] => []
  | Seg.lit _ :: rest => capNames rest
  | Seg.cap nm _ :: rest => nm :: capNames rest

theorem capNames_flushLit (acc : List Char) : capNames (flushLit acc) = [] := by
  by_cases h : acc.isEmpty <;> simp [flushLit, h, capNames]

/-- Shape of `quoteMeta` output: a sequence of escaped metacharacters and
plain non-metacharacters — in particular, never a bare `{`. -/
inductive Quoted : List Char → Prop
  | nil : Quoted []
  | esc (c : Char) (rest : List Char) : goRegexSpecial c = true → Quoted rest →
      Quoted ('\\' :: c :: rest)
  | plain (c : Char) (rest : List Char) : goRegexSpecial c = false → Quoted rest →
      Quoted (c :: rest)

theorem quoteMeta_quoted (cs : List Char) : Quoted (quoteMeta cs) := by
  induction cs with
  | nil => exact Quoted.nil
  | cons c rest ih =>
    rw [quoteMeta]
    by_cases h : goRegexSpecial c = true
    · rw [if_pos h]
      exact Quoted.esc c _ h ih
    · rw [if_neg h]
      exact Quoted.plain c _ (by simpa using h) ih

theorem quoted_head (c : Char) (rest : List Char) (hq : Quoted (c :: rest)) :
    c = '\\' ∨ goRegexSpecial c = false := by
  cases hq with
  | esc c2 rest2 hspec hrest => exact Or.inl rfl
  | plain c2 rest2 hspec hrest => exact Or.inr hspec

theorem quoted_tail_esc (c2 : Char) (rest2 : List Char)
    (hq : Quoted ('\\' :: c2 :: rest2)) : Quoted rest2 := by
  cases hq with
  | esc c rest hspec hrest => exact hrest
  | plain c rest hspec hrest => exact absurd hspec (by decide)

theorem quoted_tail_plain (c : Char) (rest : List Char) (hq : Quoted (c :: rest))
    (hc : c ≠ '\\') : Quoted rest := by
  cases hq with
  | esc c2 rest2 hspec hrest => exact absurd rfl hc
  | plain c2 rest2 hspec hrest => exact hrest

/-- A needle starting with `{` cannot sit at a position holding another
character. -/
theorem brace_needle_not_at_head (c : Char) (rest tail : List Char) (hc : c ≠ '{') :
    ¬ ((('{' :: tail).isPrefixOf (c :: rest)) = true) := by
  intro h
  have h1 : (('{' :: tail).isPrefixOf (c :: rest))
      = (('{' == c) && tail.isPrefixOf rest) := rfl
  rw [h1, Bool.and_eq_true] at h
  exact hc (beq_iff_eq.mp h.1).symm

theorem placeholderAt_not_brace (c : Char) (rest : List Char) (hc : c ≠ '{') :
    placeholderAt (c :: rest) = none := by
  have h1 : ¬ (("{id}".toList.isPrefixOf (c :: rest)) = true) :=
    fun h => brace_needle_not_at_head c rest "id\x7d".toList hc h
  have h2 : ¬ (("{user}".toList.isPrefixOf (c :: rest)) = true) :=
    fun h => brace_needle_not_at_head c rest "user\x7d".toList hc h
  have h3 : ¬ (("{name}".toList.isPrefixOf (c :: rest)) = true) :=
    fun h => brace_needle_not_at_head c rest "name\x7d".toList hc h
  have h4 : ¬ (("{text}".toList.isPrefixOf (c :: rest)) = true) :=
    fun h => brace_needle_not_at_head c rest "text\x7d".toList hc h
  have h5 : ¬ (("{amount}".toList.isPrefixOf (c :: rest)) = true) :=
    fun h => brace_needle_not_at_head c rest "amount\x7d".toList hc h
  have h6 : ¬ (("{any}".toList.isPrefixOf (c :: rest)) = true) :=
    fun h => brace_needle_not_at_head c rest "any\x7d".toList hc h
  unfold placeholderAt
  rw [if_neg h1, if_neg h2, if_neg h3, if_neg h4, if_neg h5, if_neg h6]

/-- On QuoteMeta output no replacement needle ever matches: every `{` is
escaped. -/
theorem placeholderAt_quoted_none (cs : List Char) (hq : Quoted cs) :
    placeholderAt cs = none := by
  cases cs with
  | nil => rfl
  | cons c rest =>
    by_cases hc : c = '{'
    · subst hc
      rcases quoted_head '{' rest hq with h | h
      · exact absurd h (by decide)
      · exact absurd h (by decide)
    · exact placeholderAt_not_brace c rest hc

theorem patternToRegexAux_quoted_no_caps :
    ∀ (fuel : Nat) (cs acc : List Char), Quoted cs →
      capNames (patternToRegexAux fuel cs acc) = [] := by
  intro fuel
  induction fuel with
  | zero =>
    intro cs acc _
    exact capNames_flushLit _
  | succ fuel ih =>
    intro cs acc hq
    match cs with
    | [] => exact capNames_flushLit _
    | c :: rest =>
      by_cases hc : c = '\\'
      · subst hc
        match rest with
        | [] =>
          show capNames (patternToRegexAux fuel [] ('\\' :: acc)) = []
          exact ih [] ('\\' :: acc) Quoted.nil
        | c2 :: rest2 =>
          show capNames (patternToRegexAux fuel rest2 (c2 :: acc)) = []
          exact ih rest2 (c2 :: acc) (quoted_tail_esc c2 rest2 hq)
      · simp only [patternToRegexAux, placeholderAt_quoted_none (c :: rest) hq, if_neg hc]
        exact ih rest (c :: acc) (quoted_tail_plain c rest hq hc)

/-- No substitution ever fires: every compiled pattern is capture-free. -/
theorem patternToRegex_no_caps (p : String) : capNames (patternToRegex p) = [] :=
  patternToRegexAux_quoted_no_caps _ _ [] (quoteMeta_quoted p.toList)

theorem tryCaps_shape (nm : String) (cs : List Char)
    (matchRest : List Char → Option (List (String × List Char))) :
    ∀ (k : Nat) (res : List (String × List Char)),
      tryCaps nm cs matchRest k = some res →
      ∃ taken ps suffix, res = (nm, taken) :: ps ∧ matchRest suffix = some ps := by
  intro k
  induction k with
  | zero => intro res h; simp [tryCaps] at h
  | succ k ih =>
    intro res h
    rw [tryCaps] at h
    cases hm : matchRest (cs.drop (k + 1)) with
    | some ps =>
      rw [hm] at h
      simp at h
      exact ⟨cs.take (k + 1), ps, cs.drop (k + 1), h.symm, hm⟩
    | none =>
      rw [hm] at h
      exact ih res h

theorem matchSegs_capNames :
    ∀ (segs : List Seg) (cs : List Char) (caps : List (String × List Char)),
      matchSegs segs cs = some caps → caps.map Prod.fst = capNames segs := by
  intro segs
  induction segs with
  | nil =>
    intro cs caps h
    cases cs with
    | nil => simp [matchSegs] at h; rw [h]; rfl
    | cons c rest => simp [matchSegs] at h
  | cons sg rest ih =>
    intro cs caps h
    cases sg with
    | lit s =>
      rw [matchSegs] at h
      by_cases hp : s.isPrefixOf cs
      · rw [if_pos hp] at h
        rw [capNames]
        exact ih _ _ h
      · rw [if_neg hp] at h; cases h
    | cap nm cls =>
      rw [matchSegs] at h
      obtain ⟨taken, ps, suffix, rfl, hms⟩ := tryCaps_shape nm cs _ _ _ h
      rw [capNames, List.map_cons, ih _ _ hms]

theorem compilePattern_anchored (p : String) (segs : List Seg)
    (h : compilePattern p = CompiledRegex.anchored segs) : segs = patternToRegex p := by
  unfold compilePattern at h
  by_cases hp : p = "*"
  · rw [if_pos hp] at h; cases h
  · rw [if_neg hp] at h
    injection h with h
    exact h.symm

/-- When no compiled alternative has a capture group, every outcome of the
`Match` loop carries the empty parameter map. -/
theorem matchLoop_snd_empty :
    ∀ (prs : List (String × CompiledRegex)) (t : List Char),
      (∀ pr ∈ prs, ∀ segs, pr.2 = CompiledRegex.anchored segs → capNames segs = []) →
      (matchLoop prs t).2 = [] := by
  intro prs
  induction prs with
  | nil => intro t _; rfl
  | cons pr rest ih =>
    intro t hnc
    obtain ⟨pat, rx⟩ := pr
    cases rx with
    | star => rfl
    | anchored segs =>
      rw [matchLoop]
      cases hms : matchSegs segs t with
      | some caps =>
        have h0 : capNames segs = [] :=
          hnc (pat, CompiledRegex.anchored segs) (List.mem_cons_self _ _) segs rfl
        have hcaps : caps = [] :=
          List.map_eq_nil.mp ((matchSegs_capNames _ _ _ hms).trans h0)
        subst hcaps
        rfl
      | none =>
        exact ih t (fun pr hpr segs hseg => hnc pr (List.mem_cons_of_mem _ hpr) segs hseg)

/-- `Match` always returns an empty parameter map: no compiled pattern has
a capture group, so every match is the `len(matches) == 1` case. -/
theorem match_params_empty (rp : RoutePattern) (text : String) :
    (rp.Match text).2 = [] := by
  rw [RoutePattern.Match]
  apply matchLoop_snd_empty
  intro pr hpr segs hseg
  rw [List.mem_map] at hpr
  obtain ⟨p, hp, hpe⟩ := hpr
  have hpe2 : (p, compilePattern p) = pr := hpe
  have h2 : compilePattern p = CompiledRegex.anchored segs := by
    rw [← hseg, ← hpe2]
  rw [compilePattern_anchored p segs h2]
  exact patternToRegex_no_caps p

/-- The parameter list `findMatch` hands to the dispatcher is always
empty. -/
theorem findMatch_params_empty (rs : List compiledRoute) (ctx : UniversalContext)
    (text : String) (cr : compiledRoute) (ps : List (String × String))
    (h : findMatch rs ctx text = some (cr, ps)) : ps = [] := by
  obtain ⟨pre, post, hdec, hpre, hmt, hm⟩ := findMatch_decomp ctx text cr ps rs h
  have h2 := match_params_empty cr.pattern text
  rw [hm] at h2
  exact h2

/-- The dispatcher never changes the context: the bound parameter list is
always empty, so `bindParams` is the identity and the handler sees the
incoming context unchanged — no `"_pattern"`, named, or positional entry is
ever added to its parameter bag. -/
theorem routeInternalOn_ctx_unchanged (rs : List compiledRoute)
    (wcs : List wildcardHandler) (ctx : UniversalContext) :
    (routeInternalOn rs wcs ctx).1 = ctx := by
  cases hgt : getMatchText ctx with
  | error v => simp only [routeInternalOn, hgt]
  | ok text =>
    cases hfm : findMatch rs ctx text with
    | some pr =>
      obtain ⟨cr, ps⟩ := pr
      have hps : ps = [] := findMatch_params_empty rs ctx text cr ps hfm
      subst hps
      simp only [routeInternalOn, hgt, hfm]
      rfl
    | none =>
      cases hw : wcs.find? (fun wc => wc.module.shouldHandle ctx) with
      | some wc => simp only [routeInternalOn, hgt, hfm, hw]
      | none => simp only [routeInternalOn, hgt, hfm, hw]

def c10Route : RoutePattern := { Patterns := ["order {id}"] }

/-- Claim C10 (code bug): the parameter extraction never happens.  Because
`regexp.QuoteMeta` escapes the braces before the placeholder replacements
are attempted, and the replacement regexes `\{id\}` etc. match the
unescaped text `{id}` that no longer occurs in the quoted pattern, no
substitution ever fires: no compiled pattern has a capture group, every
successful `Match` returns an empty parameter map — no named captures, no
positional keys, no `"_pattern"` entry — and the dispatcher copies nothing
into the context.  Concretely, `"order {id}"` compiles to the anchored
literal `order {id}`: it does not match `"order 42"` at all, and it matches
exactly the literal input `"order {id}"`, again with empty parameters —
contrary to the claim, to the code's own comments, and to the intended
placeholder semantics. -/
theorem placeholder_params_never_produced :
    (∀ p : String, capNames (patternToRegex p) = [])
    ∧ (∀ (rp : RoutePattern) (text : String), (rp.Match text).2 = [])
    ∧ (∀ (rs : List compiledRoute) (wcs : List wildcardHandler)
        (ctx : UniversalContext), (routeInternalOn rs wcs ctx).1 = ctx)
    ∧ patternToRegex "order {id}" = [Seg.lit "order {id}".toList]
    ∧ c10Route.Match "order 42" = (false, [])
    ∧ c10Route.Match "order {id}" = (true, [])
    ∧ (c10Route.Match "order {id}").2.lookup "_pattern" = none :=
  ⟨patternToRegex_no_caps, match_params_empty, routeInternalOn_ctx_unchanged,
    rfl, rfl, rfl, rfl⟩

end BotKit
